import Mathlib

/-!
Verification development for the "gerador-de-texto-de-empenho" application.

The embedding models, on `List Char` / `String`, the JavaScript string
operations used by the source (`toUpperCase`, `trim`, `replace(/\*\*/g,'')`,
`replace(/\*/g,'')`, `startsWith`, string concatenation), the post-processing
of the model response in `generateEmpenhoDescription`
(src/unnamed/part_000, lines 350-369), the error substitution of its catch
block (lines 370-373), and the session-state handlers of the `App` component
(`processFile`, `handleProcess`, `handleReset`, the textarea `onChange`).

Case mapping is modelled on the ASCII range (via `Char.toUpper`), and `trim`
with the four ASCII whitespace characters; presentation-only state
(`isDragging`, DOM refs) is outside the session state modelled here.
-/

namespace Empenho

/-- JS `text.toUpperCase()`, ASCII-range model: uppercase every character. -/
def upperL (l : List Char) : List Char := l.map Char.toUpper

/-- Remove a trailing run of whitespace characters. -/
def dropTrailing (l : List Char) : List Char :=
  (l.reverse.dropWhile Char.isWhitespace).reverse

/-- JS `text.trim()`: drop leading and trailing whitespace. -/
def trimL (l : List Char) : List Char :=
  dropTrailing (l.dropWhile Char.isWhitespace)

/-- JS `text.replace(/\*\*/g, '')`: delete non-overlapping `**` pairs, scanning
left to right. -/
def stripDouble : List Char → List Char
  | [] => []
  | [c] => [c]
  | c :: d :: rest =>
    if c = '*' ∧ d = '*' then stripDouble rest
    else c :: stripDouble (d :: rest)

/-- JS `text.replace(/\*/g, '')`: delete every remaining asterisk. -/
def stripSingle (l : List Char) : List Char := l.filter (fun c => c ≠ '*')

/-- JS `text.startsWith(pat)`. -/
def startsWithL : List Char → List Char → Bool
  | _, [] => true
  | [], _ :: _ => false
  | c :: cs, p :: ps => c == p && startsWithL cs ps

/-- The `requiredPrefix` constant of `generateEmpenhoDescription`. -/
def requiredStartL : List Char := "PELA DESPESA EMPENHADA".data

/-- The literal checked by `text.startsWith("REFERENTE")`. -/
def referenteL : List Char := "REFERENTE".data

/-- Cleanup phase of the post-processing (lines 353-356):
`text.toUpperCase().trim()`, then `.replace(/\*\*/g, '').replace(/\*/g, '')`. -/
def processedL (l : List Char) : List Char :=
  stripSingle (stripDouble (trimL (upperL l)))

/-- Required-phrase enforcement (lines 358-367): keep the text if it already
starts with the required phrase, prepend `"PELA DESPESA EMPENHADA "` if it
starts with `"REFERENTE"`, otherwise wrap it as the required phrase followed
by `" REFERENTE A "` and the text. -/
def enforceL (text : List Char) : List Char :=
  if startsWithL text requiredStartL then text
  else if startsWithL text referenteL then requiredStartL ++ ' ' :: text
  else requiredStartL ++ " REFERENTE A ".data ++ text

/-- Post-processing of the model response in `generateEmpenhoDescription`
(lines 350-369): uppercase, trim, strip `**` then `*`, then enforce the
required leading phrase. -/
def normalizeL (l : List Char) : List Char :=
  enforceL (processedL l)

/-- String-level wrapper of `normalizeL`. -/
def normalize (s : String) : String := ⟨normalizeL s.data⟩

/-- String-level wrapper of `upperL` (JS `toUpperCase`). -/
def upperS (s : String) : String := ⟨upperL s.data⟩

/-- String-level wrapper of `trimL` (JS `trim`). -/
def trimS (s : String) : String := ⟨trimL s.data⟩

/-- String-level wrapper of `startsWithL` (JS `startsWith`). -/
def startsWithS (s pat : String) : Bool := startsWithL s.data pat.data

/-- Reference definition of the normalizer, following the claimed three-step
description: (1) uppercase and trim the text, (2) remove all `**` sequences
and then all remaining `*` characters (net effect: every asterisk removed,
expressed here as a single filter), (3) leave the text unchanged if it starts
with `"PELA DESPESA EMPENHADA"`, prepend `"PELA DESPESA EMPENHADA "` if it
starts with `"REFERENTE"`, and otherwise return
`"PELA DESPESA EMPENHADA REFERENTE A "` followed by the processed text. -/
def normalizeSpecL (l : List Char) : List Char :=
  let processed := (trimL (upperL l)).filter (fun c => c ≠ '*')
  if startsWithL processed "PELA DESPESA EMPENHADA".data then processed
  else if startsWithL processed "REFERENTE".data then
    "PELA DESPESA EMPENHADA ".data ++ processed
  else "PELA DESPESA EMPENHADA REFERENTE A ".data ++ processed

/-- String-level wrapper of `normalizeSpecL`. -/
def normalizeSpec (s : String) : String := ⟨normalizeSpecL s.data⟩

/-- Outcome of the remote model call inside `generateEmpenhoDescription`:
either a response whose `text` field may be absent, or a thrown error
(transport, model, or file-reading failure) carrying its original message. -/
inductive ModelCall where
  | ok (responseText : Option String)
  | err (original : String)
deriving DecidableEq

/-- The fixed user-facing message thrown by the catch block (line 372). -/
def genFailureMsg : String :=
  "Falha ao processar o documento. Verifique se o arquivo é válido e tente novamente."

/-- The `generateEmpenhoDescription` service (lines 318-374) as a function of the model
call's outcome: on success the possibly-absent response text defaults to ""
(`response.text || ""`) and is normalized; on any thrown error the fixed
user-facing message replaces the original error. -/
def generateEmpenhoDescription : ModelCall → Except String String
  | .ok responseText => .ok (normalize (responseText.getD ""))
  | .err _ => .error genFailureMsg

/-- The `ProcessingStatus` enum from types.ts. -/
inductive ProcessingStatus where
  | IDLE
  | PROCESSING
  | SUCCESS
  | ERROR
deriving DecidableEq

/-- The relevant attributes of an uploaded `File`: byte size and declared
MIME type. -/
structure FileModel where
  size : Nat
  type : String
deriving DecidableEq

/-- The `FileData` record from types.ts. -/
structure FileData where
  file : FileModel
  previewUrl : Option String
deriving DecidableEq

/-- The session state of the `App` component: the five reactive variables
`status`, `fileData`, `generatedText`, `errorMsg`, `isEditing`. -/
structure AppState where
  status : ProcessingStatus
  fileData : Option FileData
  generatedText : String
  errorMsg : Option String
  isEditing : Bool
deriving DecidableEq

/-- The initial values of the five `useState` hooks (lines 8-12). -/
def initialState : AppState :=
  { status := .IDLE, fileData := none, generatedText := "", errorMsg := none,
    isEditing := false }

/-- The `validTypes` list (line 26). -/
def validTypes : List String :=
  ["application/pdf", "image/png", "image/jpeg", "image/jpg", "image/webp"]

/-- Oversized-file message (line 21). -/
def tooLargeMsg : String := "O arquivo é muito grande. O limite é 20MB."

/-- Invalid-type message (line 28). -/
def invalidTypeMsg : String := "Tipo de arquivo inválido. Use PDF ou Imagens (JPG, PNG)."

/-- Preview derivation (lines 32-37); `URL.createObjectURL` is modelled by an
opaque placeholder reference. -/
def previewUrlFor (f : FileModel) : Option String :=
  if startsWithL f.type.data "image/".data then some "blob:local-preview"
  else if f.type = "application/pdf" then
    some "https://upload.wikimedia.org/wikipedia/commons/8/87/PDF_file_icon.svg"
  else none

/-- The `processFile` handler (lines 18-43): size gate, then MIME-type gate, then
acceptance (store candidate, clear error, reset status, clear result). -/
def processFile (s : AppState) (f : FileModel) : AppState :=
  if f.size > 20 * 1024 * 1024 then { s with errorMsg := some tooLargeMsg }
  else if ¬ validTypes.contains f.type then { s with errorMsg := some invalidTypeMsg }
  else { s with fileData := some ⟨f, previewUrlFor f⟩, errorMsg := none,
                status := .IDLE, generatedText := "" }

/-- The `handleProcess` handler (lines 74-89) as a function of the model call's outcome:
no-op without a candidate; otherwise enter PROCESSING with the error cleared,
then either store the generated text and enter SUCCESS with edit mode on, or
store the error message and enter ERROR. -/
def handleProcess (s : AppState) (call : ModelCall) : AppState :=
  match s.fileData with
  | none => s
  | some _ =>
    let s1 : AppState := { s with status := .PROCESSING, errorMsg := none }
    match generateEmpenhoDescription call with
    | .ok text => { s1 with generatedText := text, status := .SUCCESS, isEditing := true }
    | .error msg => { s1 with errorMsg := some msg, status := .ERROR }

/-- The `handleReset` handler (lines 108-117). -/
def handleReset (s : AppState) : AppState :=
  { s with fileData := none, generatedText := "", status := .IDLE,
           errorMsg := none, isEditing := false }

/-- The textarea `onChange` handler (line 241):
`setGeneratedText(e.target.value.toUpperCase())`. -/
def handleEditChange (s : AppState) (newText : String) : AppState :=
  { s with generatedText := upperS newText }

/-- A concrete SUCCESS-state session used in concrete instantiations. -/
def successStateExample : AppState :=
  { status := .SUCCESS,
    fileData := some ⟨⟨5 * 1024 * 1024, "image/png"⟩, some "blob:local-preview"⟩,
    generatedText := "PELA DESPESA EMPENHADA REFERENTE A COMPRA DE PAPEL",
    errorMsg := none, isEditing := true }

/-! ### Helper lemmas about the string primitives -/

theorem char_toNat_ofNat_valid {n : Nat} (h : n.isValidChar) :
    (Char.ofNat n).toNat = n := by
  simp [Char.ofNat, dif_pos h, Char.ofNatAux, Char.toNat, UInt32.toNat]

theorem char_toUpper_toUpper (c : Char) : c.toUpper.toUpper = c.toUpper := by
  unfold Char.toUpper
  by_cases h : 97 ≤ c.toNat ∧ c.toNat ≤ 122
  · rw [if_pos h]
    have hv : (c.toNat - 32).isValidChar := Or.inl (by omega)
    have hn : (Char.ofNat (c.toNat - 32)).toNat = c.toNat - 32 :=
      char_toNat_ofNat_valid hv
    rw [if_neg]
    omega
  · rw [if_neg h, if_neg h]

theorem mem_upperL_toUpper {c : Char} {l : List Char} (h : c ∈ upperL l) :
    c.toUpper = c := by
  obtain ⟨d, -, rfl⟩ := List.mem_map.mp h
  exact char_toUpper_toUpper d

theorem upperL_eq_self {l : List Char} (h : ∀ c ∈ l, c.toUpper = c) :
    upperL l = l := by
  induction l with
  | nil => rfl
  | cons c cs ih =>
    simp only [upperL, List.map_cons] at ih ⊢
    rw [h c (List.mem_cons_self c cs), ih fun d hd => h d (List.mem_cons_of_mem c hd)]

theorem mem_dropTrailing {c : Char} {l : List Char} (h : c ∈ dropTrailing l) :
    c ∈ l := by
  unfold dropTrailing at h
  exact List.mem_reverse.mp
    (List.Sublist.mem (List.mem_reverse.mp h) (List.dropWhile_sublist _))

theorem mem_trimL {c : Char} {l : List Char} (h : c ∈ trimL l) : c ∈ l := by
  unfold trimL at h
  exact List.Sublist.mem (mem_dropTrailing h) (List.dropWhile_sublist _)

theorem mem_stripDouble : ∀ {c : Char} {l : List Char}, c ∈ stripDouble l → c ∈ l
  | _, [], h => h
  | _, [_], h => h
  | c, a :: b :: rest, h => by
    simp only [stripDouble] at h
    split at h
    · exact List.mem_cons_of_mem _ (List.mem_cons_of_mem _ (mem_stripDouble h))
    · rcases List.mem_cons.mp h with rfl | h2
      · exact List.mem_cons_self _ _
      · exact List.mem_cons_of_mem _ (mem_stripDouble h2)

theorem stripDouble_eq_self : ∀ {l : List Char}, '*' ∉ l → stripDouble l = l
  | [], _ => rfl
  | [_], _ => rfl
  | a :: b :: rest, h => by
    have hcond : ¬ (a = '*' ∧ b = '*') := by
      rintro ⟨rfl, -⟩
      exact h (List.mem_cons_self _ _)
    simp only [stripDouble, if_neg hcond]
    rw [stripDouble_eq_self fun hm => h (List.mem_cons_of_mem _ hm)]

theorem mem_stripSingle {c : Char} {l : List Char} (h : c ∈ stripSingle l) :
    c ∈ l :=
  (List.mem_filter.mp h).1

theorem not_star_mem_stripSingle {l : List Char} : '*' ∉ stripSingle l := by
  intro h
  have h2 := (List.mem_filter.mp h).2
  simp at h2

theorem stripSingle_eq_self {l : List Char} (h : '*' ∉ l) : stripSingle l = l := by
  unfold stripSingle
  refine List.filter_eq_self.mpr fun a ha => ?_
  exact decide_eq_true fun e => h (e ▸ ha)

theorem stripSingle_cons (a : Char) (l : List Char) :
    stripSingle (a :: l) =
      if a = '*' then stripSingle l else a :: stripSingle l := by
  simp only [stripSingle, List.filter_cons]
  by_cases h : a = '*' <;> simp [h]

theorem stripSingle_stripDouble :
    ∀ l : List Char, stripSingle (stripDouble l) = stripSingle l
  | [] => rfl
  | [_] => rfl
  | a :: b :: rest => by
    by_cases h : a = '*' ∧ b = '*'
    · obtain ⟨rfl, rfl⟩ := h
      have hsd : stripDouble ('*' :: '*' :: rest) = stripDouble rest := by
        simp [stripDouble]
      rw [hsd, stripSingle_stripDouble rest, stripSingle_cons, stripSingle_cons,
        if_pos rfl, if_pos rfl]
    · simp only [stripDouble, if_neg h]
      rw [stripSingle_cons, stripSingle_stripDouble (b :: rest), ← stripSingle_cons]

theorem startsWithL_append_self : ∀ p t : List Char, startsWithL (p ++ t) p = true
  | [], t => by cases t <;> rfl
  | c :: cs, t => by
    simp only [List.cons_append, startsWithL, beq_self_eq_true, Bool.true_and]
    exact startsWithL_append_self cs t

theorem exists_append_of_startsWithL :
    ∀ {l p : List Char}, startsWithL l p = true → ∃ t, l = p ++ t
  | l, [], _ => ⟨l, rfl⟩
  | [], _ :: _, h => by simp [startsWithL] at h
  | c :: cs, p :: ps, h => by
    simp only [startsWithL, Bool.and_eq_true, beq_iff_eq] at h
    obtain ⟨rfl, h2⟩ := h
    obtain ⟨t, rfl⟩ := exists_append_of_startsWithL h2
    exact ⟨t, rfl⟩

/-! ### Helper lemmas about the normalizer -/

theorem enforceL_eq_append (t : List Char) :
    ∃ z, enforceL t = requiredStartL ++ z := by
  unfold enforceL
  split
  · next h => exact exists_append_of_startsWithL h
  · split
    · exact ⟨' ' :: t, rfl⟩
    · exact ⟨" REFERENTE A ".data ++ t, rfl⟩

theorem normalizeL_eq_append (l : List Char) :
    ∃ z, normalizeL l = requiredStartL ++ z :=
  enforceL_eq_append (processedL l)

theorem startsWith_normalizeL (l : List Char) :
    startsWithL (normalizeL l) requiredStartL = true := by
  obtain ⟨z, hz⟩ := normalizeL_eq_append l
  rw [hz]
  exact startsWithL_append_self _ _

theorem noStar_requiredStart : '*' ∉ requiredStartL := by decide

theorem noStar_refPart : '*' ∉ " REFERENTE A ".data := by decide

theorem noStar_enforceL {t : List Char} (h : '*' ∉ t) : '*' ∉ enforceL t := by
  unfold enforceL
  split
  · exact h
  · split
    · intro hm
      rcases List.mem_append.mp hm with h1 | h1
      · exact noStar_requiredStart h1
      · rcases List.mem_cons.mp h1 with e | h2
        · exact absurd e (by decide)
        · exact h h2
    · intro hm
      rcases List.mem_append.mp hm with h1 | h1
      · rcases List.mem_append.mp h1 with h2 | h2
        · exact noStar_requiredStart h2
        · exact noStar_refPart h2
      · exact h h1

theorem noStar_normalizeL (l : List Char) : '*' ∉ normalizeL l :=
  noStar_enforceL not_star_mem_stripSingle

theorem allUpper_requiredStart : ∀ c ∈ requiredStartL, c.toUpper = c := by decide

theorem allUpper_refPart : ∀ c ∈ " REFERENTE A ".data, c.toUpper = c := by decide

theorem allUpper_processedL {c : Char} {l : List Char} (h : c ∈ processedL l) :
    c.toUpper = c :=
  mem_upperL_toUpper (mem_trimL (mem_stripDouble (mem_stripSingle h)))

theorem allUpper_enforceL {t : List Char} (h : ∀ c ∈ t, c.toUpper = c) :
    ∀ c ∈ enforceL t, c.toUpper = c := by
  unfold enforceL
  split
  · exact h
  · split
    · intro c hc
      rcases List.mem_append.mp hc with h1 | h1
      · exact allUpper_requiredStart c h1
      · rcases List.mem_cons.mp h1 with rfl | h2
        · decide
        · exact h c h2
    · intro c hc
      rcases List.mem_append.mp hc with h1 | h1
      · rcases List.mem_append.mp h1 with h2 | h2
        · exact allUpper_requiredStart c h2
        · exact allUpper_refPart c h2
      · exact h c h1

theorem upperL_normalizeL (l : List Char) :
    upperL (normalizeL l) = normalizeL l :=
  upperL_eq_self (allUpper_enforceL fun _ hc => allUpper_processedL hc)

theorem dropWhile_requiredStart_append (z : List Char) :
    (requiredStartL ++ z).dropWhile Char.isWhitespace = requiredStartL ++ z := by
  rw [List.dropWhile_append]
  have h1 : (requiredStartL.dropWhile Char.isWhitespace).isEmpty = false := by decide
  have h2 : requiredStartL.dropWhile Char.isWhitespace = requiredStartL := by decide
  rw [h1, h2]
  simp

theorem dropTrailing_append {l₁ l₂ : List Char}
    (h : l₁.reverse.dropWhile Char.isWhitespace = l₁.reverse) :
    dropTrailing (l₁ ++ l₂) = l₁ ++ dropTrailing l₂ := by
  unfold dropTrailing
  rw [List.reverse_append, List.dropWhile_append]
  split
  · next he =>
    have h2 : l₂.reverse.dropWhile Char.isWhitespace = [] :=
      List.isEmpty_iff.mp he
    rw [h, h2, List.reverse_reverse]
    simp
  · rw [List.reverse_append, List.reverse_reverse]

theorem dropTrailing_requiredStart :
    requiredStartL.reverse.dropWhile Char.isWhitespace = requiredStartL.reverse := by
  decide

theorem trimL_normalizeL (l : List Char) :
    trimL (normalizeL l) = dropTrailing (normalizeL l) := by
  obtain ⟨z, hz⟩ := normalizeL_eq_append l
  rw [trimL, hz, dropWhile_requiredStart_append]

theorem startsWith_dropTrailing_normalizeL (l : List Char) :
    startsWithL (dropTrailing (normalizeL l)) requiredStartL = true := by
  obtain ⟨z, hz⟩ := normalizeL_eq_append l
  rw [hz, dropTrailing_append dropTrailing_requiredStart]
  exact startsWithL_append_self _ _

theorem processedL_normalizeL (l : List Char) :
    processedL (normalizeL l) = dropTrailing (normalizeL l) := by
  have hns : '*' ∉ dropTrailing (normalizeL l) :=
    fun hm => noStar_normalizeL l (mem_dropTrailing hm)
  unfold processedL
  rw [upperL_normalizeL, trimL_normalizeL, stripDouble_eq_self hns,
    stripSingle_eq_self hns]

theorem normalizeL_normalizeL (l : List Char) :
    normalizeL (normalizeL l) = trimL (normalizeL l) := by
  have h1 : normalizeL (normalizeL l) = enforceL (processedL (normalizeL l)) := rfl
  rw [h1, processedL_normalizeL]
  unfold enforceL
  rw [if_pos (startsWith_dropTrailing_normalizeL l)]
  exact (trimL_normalizeL l).symm

theorem append_space_cons (t : List Char) :
    "PELA DESPESA EMPENHADA".data ++ ' ' :: t =
      "PELA DESPESA EMPENHADA ".data ++ t := by
  have h : "PELA DESPESA EMPENHADA ".data =
      "PELA DESPESA EMPENHADA".data ++ [' '] := by decide
  rw [h, List.append_assoc]
  rfl

theorem append_refPart (t : List Char) :
    "PELA DESPESA EMPENHADA".data ++ " REFERENTE A ".data ++ t =
      "PELA DESPESA EMPENHADA REFERENTE A ".data ++ t := by
  have h : "PELA DESPESA EMPENHADA REFERENTE A ".data =
      "PELA DESPESA EMPENHADA".data ++ " REFERENTE A ".data := by decide
  rw [h]

theorem normalizeL_eq_specL (l : List Char) : normalizeL l = normalizeSpecL l := by
  have hstrip : stripSingle (stripDouble (trimL (upperL l))) =
      (trimL (upperL l)).filter (fun c => c ≠ '*') :=
    stripSingle_stripDouble (trimL (upperL l))
  simp only [normalizeL, processedL, enforceL, normalizeSpecL, requiredStartL,
    referenteL, hstrip]
  split
  · rfl
  · split
    · exact append_space_cons _
    · exact append_refPart _

/-! ### Claims -/

/-- C1: the output normalizer equals the reference three-step definition:
(1) uppercase and trim the text, (2) remove all double-asterisk sequences and
then all remaining asterisks, (3) leave the text unchanged if it starts with
"PELA DESPESA EMPENHADA", prepend "PELA DESPESA EMPENHADA " if it starts with
"REFERENTE", and otherwise wrap it as "PELA DESPESA EMPENHADA REFERENTE A "
followed by the processed text. -/
theorem normalize_eq_reference (s : String) : normalize s = normalizeSpec s :=
  congrArg String.mk (normalizeL_eq_specL s.data)

/-- C2 (counterexample): the normalizer is not idempotent for every input:
on the empty string the first application ends in a trailing space
("PELA DESPESA EMPENHADA REFERENTE A ") that the second application trims
away. -/
theorem normalize_not_idempotent_at_empty :
    ¬ normalize (normalize "") = normalize "" := by decide

/-- C2 (amended): a second application of the normalizer exactly trims the
trailing whitespace of the first application's output, so the normalizer is
idempotent precisely on inputs whose normalized form carries no trailing
whitespace. -/
theorem normalize_normalize_eq_trim (s : String) :
    normalize (normalize s) = trimS (normalize s) :=
  congrArg String.mk (normalizeL_normalizeL s.data)

/-- C3: validation rejects with the oversized-file reason exactly when the
byte size strictly exceeds 20 × 1024 × 1024, for every session state and
every declared MIME type (a file of exactly 20 MiB is not rejected for
size). -/
theorem processFile_tooLarge_iff (s : AppState) (f : FileModel) :
    (processFile s f).errorMsg = some tooLargeMsg ↔ f.size > 20 * 1024 * 1024 := by
  unfold processFile
  have hne : invalidTypeMsg ≠ tooLargeMsg := by decide
  split
  · next h => simp [h]
  · next h =>
    split
    · simp [h, hne]
    · simp [h]

/-- C4: for every declared MIME type outside the accepted list, validation
rejects with the invalid-type reason, even when the size is within the
20 MiB bound. -/
theorem processFile_invalidType (s : AppState) (f : FileModel)
    (hsize : f.size ≤ 20 * 1024 * 1024)
    (htype : validTypes.contains f.type = false) :
    (processFile s f).errorMsg = some invalidTypeMsg := by
  unfold processFile
  rw [if_neg (by omega), if_pos (by intro hc; rw [htype] at hc; exact Bool.false_ne_true hc)]

/-- C4 witness: a 0-byte file of declared type "text/plain" is within the
size bound, outside the accepted list, and is rejected with the invalid-type
reason. -/
theorem processFile_invalidType_witness :
    (processFile initialState ⟨0, "text/plain"⟩).errorMsg = some invalidTypeMsg :=
  processFile_invalidType initialState ⟨0, "text/plain"⟩ (by decide) (by decide)

/-- C5 (counterexample): after a successful generation for an accepted file,
a failing re-generation reaches the Error state while still retaining the
previous result text: the transition does not clear the stale result. -/
theorem error_state_retains_result_cex :
    (handleProcess (handleProcess (processFile initialState ⟨5 * 1024 * 1024, "image/png"⟩)
        (.ok (some "MATERIAL DE ESCRITORIO"))) (.err "network failure")).status =
      ProcessingStatus.ERROR ∧
    (handleProcess (handleProcess (processFile initialState ⟨5 * 1024 * 1024, "image/png"⟩)
        (.ok (some "MATERIAL DE ESCRITORIO"))) (.err "network failure")).generatedText =
      "PELA DESPESA EMPENHADA REFERENTE A MATERIAL DE ESCRITORIO" ∧
    "PELA DESPESA EMPENHADA REFERENTE A MATERIAL DE ESCRITORIO" ≠ "" :=
  ⟨by decide, by decide, by decide⟩

/-- C5 (amended): on the Processing-to-Error transition the session stores
the fixed error message and enters the Error state, but does not clear the
generated result: the previous result text is retained (it is merely not
rendered, since the result section is shown only in the Success state). -/
theorem handleProcess_failure_keeps_result (s : AppState) (e : String)
    (h : s.fileData ≠ none) :
    (handleProcess s (.err e)).status = ProcessingStatus.ERROR ∧
    (handleProcess s (.err e)).errorMsg = some genFailureMsg ∧
    (handleProcess s (.err e)).generatedText = s.generatedText := by
  unfold handleProcess
  cases hfd : s.fileData with
  | none => exact absurd hfd h
  | some fd => exact ⟨rfl, rfl, rfl⟩

/-- C5 witness: the amended transition instantiated at a concrete Success
state that still holds an accepted candidate. -/
theorem handleProcess_failure_keeps_result_witness :
    successStateExample.fileData ≠ none ∧
    ((handleProcess successStateExample (.err "timeout")).status = ProcessingStatus.ERROR ∧
     (handleProcess successStateExample (.err "timeout")).errorMsg = some genFailureMsg ∧
     (handleProcess successStateExample (.err "timeout")).generatedText =
       successStateExample.generatedText) :=
  ⟨by decide, handleProcess_failure_keeps_result successStateExample "timeout" (by decide)⟩

/-- C6: any underlying error during generation yields the fixed user-facing
failure message, independent of the original error, which is therefore never
exposed to the caller. -/
theorem generation_error_fixed_message (original : String) :
    generateEmpenhoDescription (.err original) = .error genFailureMsg := rfl

/-- C7: an absent model response does not fail generation: the empty string
is passed to the normalizer and a normalized result is still produced. -/
theorem empty_response_still_normalized :
    generateEmpenhoDescription (.ok none) = .ok (normalize "") ∧
    normalize "" = "PELA DESPESA EMPENHADA REFERENTE A " :=
  ⟨rfl, by decide⟩

/-- C8: resetting from any session state yields the same final state: no
candidate, empty result text, no error message, Idle status, edit mode off —
exactly the initial state. -/
theorem reset_yields_initial (s : AppState) : handleReset s = initialState := rfl

/-- C9: editing the result stores exactly the uppercased user-supplied text
(leaving the status unchanged); the full normalizer is not reapplied: at a
concrete Success state the stored edit keeps its asterisks and gains no
required phrase, unlike the normalizer's output. -/
theorem edit_stores_uppercase_only :
    (∀ (s : AppState) (t : String),
        (handleEditChange s t).generatedText = upperS t ∧
        (handleEditChange s t).status = s.status) ∧
    (handleEditChange successStateExample "novo *texto*").generatedText =
      "NOVO *TEXTO*" ∧
    (handleEditChange successStateExample "novo *texto*").generatedText ≠
      normalize "novo *texto*" :=
  ⟨fun _ _ => ⟨rfl, rfl⟩, by decide, by decide⟩

/-- C10: every normalized output starts with the literal phrase
"PELA DESPESA EMPENHADA", but not necessarily with the longer phrase
"PELA DESPESA EMPENHADA REFERENTE A": an input already starting with the
short phrase followed by anything else is returned unchanged, with no
"REFERENTE A" inserted. -/
theorem normalize_starts_with_required :
    (∀ s : String, startsWithS (normalize s) "PELA DESPESA EMPENHADA" = true) ∧
    normalize "PELA DESPESA EMPENHADA DO MES" = "PELA DESPESA EMPENHADA DO MES" ∧
    startsWithS (normalize "PELA DESPESA EMPENHADA DO MES")
      "PELA DESPESA EMPENHADA REFERENTE A" = false :=
  ⟨fun s => startsWith_normalizeL s.data, by decide, by decide⟩

end Empenho
